import Mathlib

/-!
# Verification of the jade runtime timer and HTTP subsystems

This development gives a shallow embedding of the asynchronous runtime of the
jade repository: the libuv-backed timer registry (src/uv_event_loop.c), its
JavaScript bindings (src/js_bindings.c), and the HTTP client protocol layer
(src/http_api.c).  Stateful C code is modelled by explicit state passing and
an event list; machine strings are modelled as lists of byte-valued
characters, with C string semantics (NUL termination, strtok mutation)
made explicit.
-/

set_option autoImplicit false

namespace Jade

/-! ## Timer registry (src/uv_event_loop.c)

The C file keeps three globals: the fixed 1024-slot array
`timer_registry`, the allocation counter `next_timer_id`, and the libuv
loop clock.  A `TimerRequest` owns a uv timer handle, a JS callback, and
its numeric id.  We model one registry slot by `TimerEntry`:

* `fire_at`   - the absolute deadline (uv loop time at which the timer is due),
* `period`    - the uv repeat value (0 for a one-shot from set_timeout,
                the interval for set_interval),
* `started`   - whether the uv timer is currently armed (uv_timer_start sets
                it, uv_timer_stop and a one-shot firing clear it),
* `cb_protects` - the number of outstanding JSValueProtect references taken
                by the timer code on the callback of this entry
                (set_timeout/set_interval take one at registration;
                on_timer takes and releases one around each invocation;
                clear_timeout releases one).
-/

structure TimerEntry where
  fire_at : Nat
  period : Nat
  started : Bool
  cb_protects : Nat
  deriving DecidableEq, Repr

/-- The timer-related global state of the runtime: the allocation counter
`next_timer_id`, the registry (an association list standing for the
non-NULL slots of the C array `timer_registry[1024]`), and the loop clock. -/
structure TimerState where
  next_timer_id : Nat
  timer_registry : List (Nat × TimerEntry)
  now : Nat
  deriving DecidableEq, Repr

/-- Reading a registry slot: the first binding for the id, matching the C
array lookup `timer_registry[timer_id]` (NULL is `none`). -/
def lookupTimer (id : Nat) : List (Nat × TimerEntry) → Option TimerEntry
  | [] => none
  | (i, e) :: t => if i = id then some e else lookupTimer id t

/-- Clearing a registry slot, `timer_registry[timer_id] = NULL`. -/
def removeTimer (id : Nat) : List (Nat × TimerEntry) → List (Nat × TimerEntry)
  | [] => []
  | p :: t => if p.1 = id then removeTimer id t else p :: removeTimer id t

/-- Overwriting the entry of an id in place (used by the firing step to
record the uv timer state after the callback ran). -/
def updateTimer (id : Nat) (e : TimerEntry) :
    List (Nat × TimerEntry) → List (Nat × TimerEntry)
  | [] => []
  | p :: t =>
    if p.1 = id then (id, e) :: updateTimer id e t
    else p :: updateTimer id e t

/-- `set_timeout(ctx, callback, timeout)` from src/uv_event_loop.c:
allocates a TimerRequest with id `next_timer_id++`, stores it in the
registry, arms a uv timer with repeat 0, and takes one JSValueProtect on
the callback.  The C array has 1024 slots and the store is unchecked, so
only states with `next_timer_id < 1024` are within defined behavior; the
model allocates nothing beyond that bound. -/
def set_timeout (timeout : Nat) (s : TimerState) : TimerState :=
  if s.next_timer_id < 1024 then
    { s with
      next_timer_id := s.next_timer_id + 1
      timer_registry :=
        (s.next_timer_id,
          { fire_at := s.now + timeout, period := 0, started := true,
            cb_protects := 1 }) :: s.timer_registry }
  else s

/-- `set_interval(ctx, callback, interval)`: identical allocation, but the
uv timer is armed with `uv_timer_start(&tr->timer, on_timer, interval,
interval)`, i.e. first due at `now + interval` and repeating. -/
def set_interval (interval : Nat) (s : TimerState) : TimerState :=
  if s.next_timer_id < 1024 then
    { s with
      next_timer_id := s.next_timer_id + 1
      timer_registry :=
        (s.next_timer_id,
          { fire_at := s.now + interval, period := interval, started := true,
            cb_protects := 1 }) :: s.timer_registry }
  else s

/-- `clear_timeout(ctx, timer_id)`: ids at or beyond the counter, and ids
whose slot is NULL, are rejected up front and the state is untouched.
Otherwise the uv timer is stopped and closed, one JSValueProtect is
released, the slot is set to NULL and the request is freed - modelled by
dropping the entry (its handle, protect and storage are gone). -/
def clear_timeout (id : Nat) (s : TimerState) : TimerState :=
  if s.next_timer_id ≤ id then s
  else
    match lookupTimer id s.timer_registry with
    | none => s
    | some _ => { s with timer_registry := removeTimer id s.timer_registry }

/-- `clear_interval(ctx, timer_id)` - the C body is exactly
`clear_timeout(ctx, timer_id);`. -/
def clear_interval (id : Nat) (s : TimerState) : TimerState :=
  clear_timeout id s

/-- The libuv firing step together with the C handler `on_timer`: the
callback of a due, armed timer is invoked once (on_timer wraps the call in
a JSValueProtect/JSValueUnprotect pair of its own, so the protect count of
the entry is unchanged); afterwards libuv stops a timer whose repeat is 0
and re-arms a repeating one.  `on_timer` itself neither frees the request
nor clears the registry slot nor releases the registration protect.
Returns the new state and the list of callback invocations (by timer id)
performed by the step. -/
def on_timer (id : Nat) (s : TimerState) : TimerState × List Nat :=
  match lookupTimer id s.timer_registry with
  | none => (s, [])
  | some e =>
    if e.started ∧ e.fire_at ≤ s.now then
      let e' : TimerEntry :=
        if e.period = 0 then { e with started := false }
        else { e with fire_at := s.now + e.period }
      ({ s with timer_registry := updateTimer id e' s.timer_registry }, [id])
    else (s, [])

/-- Events the script and the reactor can interleave. -/
inductive TimerEvent where
  | setT (timeout : Nat)
  | setI (interval : Nat)
  | clearT (id : Nat)
  | clearI (id : Nat)
  | advance (d : Nat)
  | fire (id : Nat)
  deriving DecidableEq, Repr

/-- One dispatch step; returns the state and the callback invocations the
step performed. -/
def applyTimerEvent (s : TimerState) : TimerEvent → TimerState × List Nat
  | .setT t => (set_timeout t s, [])
  | .setI t => (set_interval t s, [])
  | .clearT id => (clear_timeout id s, [])
  | .clearI id => (clear_interval id s, [])
  | .advance d => ({ s with now := s.now + d }, [])
  | .fire id => on_timer id s

/-- Run a list of events, accumulating every callback invocation. -/
def runTimerEvents (s : TimerState) : List TimerEvent → TimerState × List Nat
  | [] => (s, [])
  | e :: rest =>
    let p := applyTimerEvent s e
    let q := runTimerEvents p.1 rest
    (q.1, p.2 ++ q.2)

/-- The state of the runtime at startup: counter 0, all slots NULL. -/
def initTimerState : TimerState :=
  { next_timer_id := 0, timer_registry := [], now := 0 }

/-! ### JS bindings for the timer API (src/js_bindings.c) -/

/-- The script-visible value returned across the JSC boundary. -/
inductive JSRet where
  | undef
  | num (n : Nat)
  deriving DecidableEq, Repr

/-- `js_set_timeout` (src/js_bindings.c, happy path with valid arguments):
calls `set_timeout(ctx, callback, delay)` and then returns
`JSValueMakeUndefined(ctx)`. -/
def js_set_timeout (delay : Nat) (s : TimerState) : JSRet × TimerState :=
  (JSRet.undef, set_timeout delay s)

/-- `js_set_interval` (src/js_bindings.c, happy path): calls
`set_interval(ctx, callback, interval)` and returns
`JSValueMakeNumber(ctx, next_timer_id - 1)`. -/
def js_set_interval (interval : Nat) (s : TimerState) : JSRet × TimerState :=
  let s' := set_interval interval s
  (JSRet.num (s'.next_timer_id - 1), s')

/-- An id is dead when its slot is NULL and the allocation counter has
moved past it: such an id can never be allocated again. -/
def DeadId (id : Nat) (s : TimerState) : Prop :=
  lookupTimer id s.timer_registry = none ∧ id < s.next_timer_id

/-- Well-formedness of the registry: every occupied slot has an id below
the allocation counter (true from startup on, since slots are only ever
filled with the freshly incremented counter value). -/
def WfTimers (s : TimerState) : Prop :=
  ∀ p ∈ s.timer_registry, p.1 < s.next_timer_id

/-! ## HTTP client (src/http_api.c)

Byte strings are modelled as `List Char` (one `Char` per byte).  The C
code manipulates NUL-terminated strings with `strstr`, `strtok`, `strchr`
and `sscanf`; each of those is modelled explicitly, including the
in-place mutation `strtok` performs on the header buffer. -/

/-- The C string a buffer denotes: its bytes up to the first NUL. -/
def cstr (buf : List Char) : List Char :=
  buf.takeWhile (fun c => c ≠ '\x00')

/-- The delimiter set of the strtok calls in on_http_read. -/
def isCrLf (c : Char) : Bool :=
  c = '\r' || c = '\n'

/-- First index at which `pat` occurs in `s` (the index strstr reports),
or `none` when it does not occur. -/
def findSub (pat : List Char) : List Char → Option Nat
  | [] => if pat.isPrefixOf [] then some 0 else none
  | c :: t =>
    if pat.isPrefixOf (c :: t) then some 0
    else (findSub pat t).map (fun n => n + 1)

/-- The blank-line delimiter separating HTTP headers from the body. -/
def headerBodySep : List Char := ['\r', '\n', '\r', '\n']

/-- The first `strtok(buf, CRLF)` call on a fresh buffer: skip leading
delimiter bytes, read the token, and - when a delimiter byte terminates
the token - overwrite that byte with NUL in the buffer.  Returns the
token (none when the C call returns NULL) and the mutated buffer. -/
def strtokFirst (buf : List Char) : Option (List Char) × List Char :=
  let s := cstr buf
  let lead := (s.takeWhile isCrLf).length
  let rest := s.drop lead
  match rest with
  | [] => (none, buf)
  | _ :: _ =>
    let tok := rest.takeWhile (fun c => ¬ isCrLf c)
    let j := lead + tok.length
    if j < s.length then (some tok, buf.set j '\x00') else (some tok, buf)

/-- One-pass tokenizer accumulating the current (reversed) token. -/
def strtokAllAux : List Char → List Char → List (List Char)
  | [], acc => if acc = [] then [] else [acc.reverse]
  | c :: t, acc =>
    if isCrLf c then
      if acc = [] then strtokAllAux t []
      else acc.reverse :: strtokAllAux t []
    else strtokAllAux t (c :: acc)

/-- All tokens a strtok loop with CRLF delimiters yields on a C string:
the maximal delimiter-free runs (empty tokens never occur, since strtok
skips runs of delimiters). -/
def strtokAll (s : List Char) : List (List Char) :=
  strtokAllAux s []

/-- Whitespace in the sense of the C scanf %d directive. -/
def isScanSpace (c : Char) : Bool :=
  c = ' ' || c = '\t' || c = '\n' || c = '\r' || c = '\x0b' || c = '\x0c'

/-- Greedy decimal digit parse, requiring at least one digit. -/
def parseNatDigits (s : List Char) : Option Nat :=
  let ds := s.takeWhile (fun c => '0' ≤ c ∧ c ≤ '9')
  match ds with
  | [] => none
  | _ :: _ => some (ds.foldl (fun acc c => acc * 10 + (c.toNat - '0'.toNat)) 0)

/-- The literal bytes the format string HTTP/1.1 matches. -/
def httpLit : List Char := ['H', 'T', 'T', 'P', '/', '1', '.', '1']

/-- The sscanf call of on_http_read: format literal HTTP/1.1, then a
whitespace directive (matching zero or more whitespace bytes), then %d.
Returns the converted integer, or `none` when matching fails (in which
case the C call writes nothing and status_code keeps its prior value). -/
def scanStatus (s : List Char) : Option Int :=
  if httpLit.isPrefixOf s then
    let r := (s.drop 8).dropWhile isScanSpace
    match r with
    | '-' :: rest => (parseNatDigits rest).map (fun n => -(n : Int))
    | '+' :: rest => (parseNatDigits rest).map (fun n => (n : Int))
    | _ => (parseNatDigits r).map (fun n => (n : Int))
  else none

/-- The parse state carried by the C struct HttpRequest across reads. -/
structure HttpState where
  response_data : List Char
  status_code : Int
  response_headers : Option (List Char)
  headers_parsed : Bool
  response_body : Option (List Char)
  deriving DecidableEq, Repr

/-- The HttpRequest fields as initialized by http_get / http_post /
http_put / http_delete. -/
def initHttpState : HttpState :=
  { response_data := [], status_code := 0, response_headers := none,
    headers_parsed := false, response_body := none }

/-- The body placeholder for a response without body bytes: the
two-character string of an opening and a closing curly brace. -/
def jsonEmpty : List Char := ['{', '}']

/-- The `nread > 0` branch of on_http_read: append the chunk to
response_data; if the headers were not parsed yet and the accumulated C
string now contains the blank-line delimiter, copy out the header bytes,
run `strtok` once on that copy (mutating it) and sscanf the resulting
status line, and freeze the body: the bytes after the delimiter if there
are any, the placeholder `jsonEmpty` otherwise. -/
def on_http_read_data (st : HttpState) (chunk : List Char) : HttpState :=
  if st.headers_parsed then
    { st with response_data := st.response_data ++ chunk }
  else
    match findSub headerBodySep (cstr (st.response_data ++ chunk)) with
    | none => { st with response_data := st.response_data ++ chunk }
    | some i =>
      { response_data := st.response_data ++ chunk
        status_code :=
          match (strtokFirst ((st.response_data ++ chunk).take i)).1 with
          | some tok => (scanStatus tok).getD st.status_code
          | none => st.status_code
        response_headers :=
          some (strtokFirst ((st.response_data ++ chunk).take i)).2
        headers_parsed := true
        response_body :=
          some (if (st.response_data ++ chunk).length - (i + 4) > 0 then
              (st.response_data ++ chunk).drop (i + 4)
            else jsonEmpty) }

/-- Splitting a header line at the first colon (strchr) and skipping the
spaces after it, as the header loop of on_http_read does; lines without a
colon are skipped. -/
def headerOfLine (tok : List Char) : Option (List Char × List Char) :=
  match findSub [':'] tok with
  | none => none
  | some j => some (tok.take j, (tok.drop (j + 1)).dropWhile (fun c => c = ' '))

/-- JSObjectSetProperty on the headers object: setting an existing key
overwrites it, a new key is appended. -/
def setHeader (m : List (List Char × List Char)) (k v : List Char) :
    List (List Char × List Char) :=
  if m.any (fun p => p.1 = k) then
    m.map (fun p => if p.1 = k then (k, v) else p)
  else m ++ [(k, v)]

/-- The header map assembled by the strtok loop of the completion branch
of on_http_read, reading the (mutated) header buffer as a C string. -/
def buildHeaders (buf : List Char) : List (List Char × List Char) :=
  (strtokAll (cstr buf)).foldl
    (fun m tok =>
      match headerOfLine tok with
      | none => m
      | some kv => setHeader m kv.1 kv.2)
    []

/-- The response value delivered to the script callback. -/
structure HttpResult where
  statusCode : Int
  headers : List (List Char × List Char)
  body : List Char
  deriving DecidableEq, Repr

/-- The `nread <= 0` completion branch of on_http_read: build the response
object from the current parse state.  A NULL header buffer yields an empty
header map; a NULL body yields the `jsonEmpty` placeholder. -/
def on_http_read_done (st : HttpState) : HttpResult :=
  { statusCode := st.status_code
  , headers :=
      match st.response_headers with
      | none => []
      | some buf => buildHeaders buf
  , body := st.response_body.getD jsonEmpty }

/-- The full client parse: accumulate every data chunk, then complete at
stream close. -/
def httpClientRun (chunks : List (List Char)) : HttpResult :=
  on_http_read_done (chunks.foldl on_http_read_data initHttpState)

/-- An argument value passed to the script callback. -/
inductive JSArg where
  | null
  | errorString (msg : List Char)
  | respObj (r : HttpResult)
  deriving DecidableEq, Repr

/-- One script callback invocation: the pair of arguments. -/
def CallbackCall := JSArg × JSArg
deriving instance DecidableEq, Repr for CallbackCall

/-- A libuv read event: a data chunk, or stream termination (nread = UV_EOF
on orderly close, a negative error code on a read failure). -/
inductive ReadEvent where
  | data (bytes : List Char)
  | closed (nread : Int)
  deriving DecidableEq, Repr

/-- on_http_read over the lifetime of one request: every `nread > 0`
event accumulates bytes, and the first `nread <= 0` event - orderly EOF
and read errors are not distinguished by the code - invokes the callback
once with a null first argument and the response object, then closes the
socket and frees the request, so no further events are delivered. -/
def httpReadSequence (st : HttpState) : List ReadEvent → HttpState × List CallbackCall
  | [] => (st, [])
  | .data b :: rest => httpReadSequence (on_http_read_data st b) rest
  | .closed _ :: _ =>
    (st, [(JSArg.null, JSArg.respObj (on_http_read_done st))])

/-- What on_dns_resolved does besides invoking callbacks. -/
inductive DnsOutcome where
  | silentDrop
  | connectStarted
  deriving DecidableEq, Repr

/-- on_dns_resolved (src/http_api.c): on `status < 0` it frees the
resolver and returns - no callback is invoked and no connection is
attempted; otherwise it opens the TCP connection.  Returns the outcome
and the callback invocations performed. -/
def on_dns_resolved (status : Int) : DnsOutcome × List CallbackCall :=
  if status < 0 then (DnsOutcome.silentDrop, [])
  else (DnsOutcome.connectStarted, [])

/-- Content type chosen by is_json_data (src/http_api.c): the body is
JSON when its first byte is an opening curly brace and its last byte
(at strlen - 1) is a closing curly brace; a NULL body is not JSON. -/
def is_json_data : Option (List Char) → Bool
  | none => false
  | some data =>
    match cstr data with
    | [] => false
    | c :: t => c = '{' && ((c :: t).getLast (by simp) = '}')

/-- application/json as bytes. -/
def ctJson : List Char := "application/json".toList

/-- application/x-www-form-urlencoded as bytes. -/
def ctForm : List Char := "application/x-www-form-urlencoded".toList

/-- The request text snprintf assembles in on_http_connect, before
truncation, following the four format-string branches of the C code
(DELETE, PUT, POST when request_data is non-NULL, GET otherwise). -/
def buildHttpRequest (method : Option (List Char)) (path host : List Char)
    (request_data : Option (List Char)) (request_data_len : Nat) : List Char :=
  if method = some ("DELETE".toList) then
    "DELETE ".toList ++ path ++ " HTTP/1.1\r\nHost: ".toList ++ host ++
      "\r\nConnection: close\r\n\r\n".toList
  else if method = some ("PUT".toList) then
    "PUT ".toList ++ path ++ " HTTP/1.1\r\nHost: ".toList ++ host ++
      "\r\nContent-Type: ".toList ++
      (if is_json_data request_data then ctJson else ctForm) ++
      "\r\nContent-Length: ".toList ++ (Nat.repr request_data_len).toList ++
      "\r\nConnection: close\r\n\r\n".toList ++ cstr (request_data.getD [])
  else if request_data.isSome then
    "POST ".toList ++ path ++ " HTTP/1.1\r\nHost: ".toList ++ host ++
      "\r\nContent-Type: ".toList ++
      (if is_json_data request_data then ctJson else ctForm) ++
      "\r\nContent-Length: ".toList ++ (Nat.repr request_data_len).toList ++
      "\r\nConnection: close\r\n\r\n".toList ++ cstr (request_data.getD [])
  else
    "GET ".toList ++ path ++ " HTTP/1.1\r\nHost: ".toList ++ host ++
      "\r\nConnection: close\r\n\r\n".toList

/-- What on_http_connect does besides invoking callbacks. -/
inductive ConnectOutcome where
  | silentDrop
  | wrote (request : List Char)
  deriving DecidableEq, Repr

/-- on_http_connect (src/http_api.c): on `status < 0` it returns without
invoking the callback and without writing; otherwise it snprintf-formats
the request into a 1024-byte stack buffer (truncating to 1023 bytes plus
NUL) and writes the resulting C string to the socket. -/
def on_http_connect (status : Int) (method : Option (List Char))
    (path host : List Char) (request_data : Option (List Char))
    (request_data_len : Nat) : ConnectOutcome × List CallbackCall :=
  if status < 0 then (ConnectOutcome.silentDrop, [])
  else
    (ConnectOutcome.wrote
      ((buildHttpRequest method path host request_data request_data_len).take 1023),
     [])

/-- The request_data_len field http_post and http_put store:
`strlen(data)`. -/
def postRequestDataLen (body : List Char) : Nat := (cstr body).length

/-- The status line the client parse extracts from a byte stream: the
first strtok token of the header section (the bytes before the first
blank-line delimiter of the accumulated C string). -/
def statusLineOfStream (s : List Char) : Option (List Char) :=
  match findSub headerBodySep (cstr s) with
  | none => none
  | some i => (strtokFirst (s.take i)).1

/-- The status code the client parse yields on a byte stream, as a pure
function of the whole stream (proved below to agree with the chunked
incremental parse). -/
def specStatusOf (s : List Char) : Int :=
  match statusLineOfStream s with
  | none => 0
  | some tok => (scanStatus tok).getD 0

/-- Invariant of the incremental parse: before the blank-line delimiter is
seen the body is still NULL, and from the moment it is seen on a stream
whose body portion is empty, the body is frozen to the placeholder. -/
def GoodBody (st : HttpState) : Prop :=
  (st.headers_parsed = false ∧ st.response_body = none) ∨
  (st.headers_parsed = true ∧ st.response_body = some jsonEmpty)

/-- Invariant of the incremental parse relating the status code to the
whole stream `S`: before the delimiter is seen the code is still 0 and no
delimiter occurs in the accumulated C string; afterwards the code is the
one the full-stream parse yields. -/
def StatusInv (S : List Char) (st : HttpState) : Prop :=
  (st.headers_parsed = false ∧ st.status_code = 0 ∧
    findSub headerBodySep (cstr st.response_data) = none) ∨
  (st.headers_parsed = true ∧ st.status_code = specStatusOf S)

/-- A status line of the form HTTP/1.1 followed by a space and a decimal
status code, read off the words of the specification. -/
def specStatusLineForm (line : List Char) : Bool :=
  "HTTP/1.1 ".toList.isPrefixOf line &&
    match (line.drop 9).takeWhile (fun c => '0' ≤ c ∧ c ≤ '9') with
    | [] => false
    | _ :: _ =>
      match (line.drop 9).dropWhile (fun c => '0' ≤ c ∧ c ≤ '9') with
      | [] => true
      | c :: _ => c = ' '

/-! ### Basic registry lemmas -/

theorem lookupTimer_removeTimer_self (id : Nat) (l : List (Nat × TimerEntry)) :
    lookupTimer id (removeTimer id l) = none := by
  induction l with
  | nil => rfl
  | cons p t ih =>
    by_cases h : p.1 = id
    · rw [removeTimer, if_pos h]; exact ih
    · rw [removeTimer, if_neg h, lookupTimer, if_neg h]; exact ih

theorem lookupTimer_removeTimer_other {id j : Nat} (hne : j ≠ id)
    (l : List (Nat × TimerEntry)) :
    lookupTimer id (removeTimer j l) = lookupTimer id l := by
  induction l with
  | nil => rfl
  | cons p t ih =>
    by_cases h : p.1 = j
    · have hpid : ¬ p.1 = id := by rw [h]; exact hne
      rw [removeTimer, if_pos h, lookupTimer, if_neg hpid]; exact ih
    · by_cases h2 : p.1 = id
      · rw [removeTimer, if_neg h, lookupTimer, if_pos h2, lookupTimer, if_pos h2]
      · rw [removeTimer, if_neg h, lookupTimer, if_neg h2, lookupTimer, if_neg h2]
        exact ih

theorem lookupTimer_updateTimer_other {id j : Nat} (hne : j ≠ id)
    (e : TimerEntry) (l : List (Nat × TimerEntry)) :
    lookupTimer id (updateTimer j e l) = lookupTimer id l := by
  induction l with
  | nil => rfl
  | cons p t ih =>
    by_cases h : p.1 = j
    · have hpid : ¬ p.1 = id := by rw [h]; exact hne
      rw [updateTimer, if_pos h, lookupTimer, if_neg hne, lookupTimer, if_neg hpid]
      exact ih
    · by_cases h2 : p.1 = id
      · rw [updateTimer, if_neg h, lookupTimer, if_pos h2, lookupTimer, if_pos h2]
      · rw [updateTimer, if_neg h, lookupTimer, if_neg h2, lookupTimer, if_neg h2]
        exact ih

theorem deadId_clear_timeout {id : Nat} {s : TimerState}
    (h : id < s.next_timer_id) : DeadId id (clear_timeout id s) := by
  unfold clear_timeout
  have hnot : ¬ s.next_timer_id ≤ id := by omega
  rw [if_neg hnot]
  cases hl : lookupTimer id s.timer_registry with
  | none => exact ⟨hl, h⟩
  | some e => exact ⟨lookupTimer_removeTimer_self id s.timer_registry, h⟩

theorem deadId_clear {id j : Nat} {s : TimerState} (hd : DeadId id s) :
    DeadId id (clear_timeout j s) := by
  obtain ⟨hnone, hlt⟩ := hd
  unfold clear_timeout
  by_cases hle : s.next_timer_id ≤ j
  · rw [if_pos hle]; exact ⟨hnone, hlt⟩
  · rw [if_neg hle]
    cases hl : lookupTimer j s.timer_registry with
    | none => exact ⟨hnone, hlt⟩
    | some e =>
      by_cases hji : j = id
      · subst hji; rw [hl] at hnone; cases hnone
      · exact ⟨by rw [lookupTimer_removeTimer_other hji]; exact hnone, hlt⟩

theorem deadId_step {id : Nat} {s : TimerState} (hd : DeadId id s)
    (e : TimerEvent) :
    DeadId id (applyTimerEvent s e).1 ∧ id ∉ (applyTimerEvent s e).2 := by
  cases e with
  | setT t =>
    obtain ⟨hnone, hlt⟩ := hd
    refine ⟨?_, by simp [applyTimerEvent]⟩
    simp only [applyTimerEvent, set_timeout]
    by_cases hcap : s.next_timer_id < 1024
    · rw [if_pos hcap]
      have hne : ¬ s.next_timer_id = id := by omega
      refine ⟨?_, Nat.lt_succ_of_lt hlt⟩
      rw [lookupTimer, if_neg hne]; exact hnone
    · rw [if_neg hcap]; exact ⟨hnone, hlt⟩
  | setI t =>
    obtain ⟨hnone, hlt⟩ := hd
    refine ⟨?_, by simp [applyTimerEvent]⟩
    simp only [applyTimerEvent, set_interval]
    by_cases hcap : s.next_timer_id < 1024
    · rw [if_pos hcap]
      have hne : ¬ s.next_timer_id = id := by omega
      refine ⟨?_, Nat.lt_succ_of_lt hlt⟩
      rw [lookupTimer, if_neg hne]; exact hnone
    · rw [if_neg hcap]; exact ⟨hnone, hlt⟩
  | clearT j =>
    exact ⟨deadId_clear hd, by simp [applyTimerEvent]⟩
  | clearI j =>
    exact ⟨deadId_clear hd, by simp [applyTimerEvent, clear_interval]⟩
  | advance d =>
    exact ⟨⟨hd.1, hd.2⟩, by simp [applyTimerEvent]⟩
  | fire j =>
    obtain ⟨hnone, hlt⟩ := hd
    simp only [applyTimerEvent, on_timer]
    by_cases hji : j = id
    · subst hji
      rw [hnone]
      exact ⟨⟨hnone, hlt⟩, by simp⟩
    · cases hl : lookupTimer j s.timer_registry with
      | none => exact ⟨⟨hnone, hlt⟩, by simp⟩
      | some e =>
        dsimp only
        by_cases hfi : e.started ∧ e.fire_at ≤ s.now
        · rw [if_pos hfi]
          refine ⟨⟨?_, hlt⟩, by simpa using fun h => hji h.symm⟩
          rw [lookupTimer_updateTimer_other hji]
          exact hnone
        · rw [if_neg hfi]
          exact ⟨⟨hnone, hlt⟩, by simp⟩

theorem deadId_run {id : Nat} {s : TimerState} (hd : DeadId id s)
    (evs : List TimerEvent) : id ∉ (runTimerEvents s evs).2 := by
  induction evs generalizing s with
  | nil => simp [runTimerEvents]
  | cons e rest ih =>
    have hstep := deadId_step hd e
    simp only [runTimerEvents, List.mem_append]
    push_neg
    exact ⟨hstep.2, ih hstep.1⟩

theorem mem_removeTimer {p : Nat × TimerEntry} {id : Nat}
    {l : List (Nat × TimerEntry)} (h : p ∈ removeTimer id l) : p ∈ l := by
  induction l with
  | nil => simpa [removeTimer] using h
  | cons q t ih =>
    by_cases hq : q.1 = id
    · rw [removeTimer, if_pos hq] at h
      exact List.mem_cons_of_mem q (ih h)
    · rw [removeTimer, if_neg hq] at h
      rcases List.mem_cons.1 h with h1 | h2
      · exact h1 ▸ List.mem_cons_self q t
      · exact List.mem_cons_of_mem q (ih h2)

theorem mem_updateTimer {p : Nat × TimerEntry} {id : Nat} {e : TimerEntry}
    {l : List (Nat × TimerEntry)} (h : p ∈ updateTimer id e l) :
    ∃ q ∈ l, p.1 = q.1 := by
  induction l with
  | nil => simp [updateTimer] at h
  | cons q t ih =>
    by_cases hq : q.1 = id
    · rw [updateTimer, if_pos hq] at h
      rcases List.mem_cons.1 h with h1 | h2
      · exact ⟨q, List.mem_cons_self q t, by rw [h1, hq]⟩
      · obtain ⟨r, hr, hr2⟩ := ih h2
        exact ⟨r, List.mem_cons_of_mem q hr, hr2⟩
    · rw [updateTimer, if_neg hq] at h
      rcases List.mem_cons.1 h with h1 | h2
      · exact ⟨q, List.mem_cons_self q t, by rw [h1]⟩
      · obtain ⟨r, hr, hr2⟩ := ih h2
        exact ⟨r, List.mem_cons_of_mem q hr, hr2⟩

theorem lookupTimer_eq_none_of_keys_lt {n : Nat} {l : List (Nat × TimerEntry)}
    (h : ∀ p ∈ l, p.1 < n) : lookupTimer n l = none := by
  induction l with
  | nil => rfl
  | cons q t ih =>
    have hq : ¬ q.1 = n := Nat.ne_of_lt (h q (List.mem_cons_self q t))
    rw [lookupTimer, if_neg hq]
    exact ih (fun p hp => h p (List.mem_cons_of_mem q hp))

theorem wfTimers_clear {s : TimerState} (hwf : WfTimers s) (j : Nat) :
    WfTimers (clear_timeout j s) := by
  unfold clear_timeout
  by_cases hle : s.next_timer_id ≤ j
  · rw [if_pos hle]; exact hwf
  · rw [if_neg hle]
    cases hl : lookupTimer j s.timer_registry with
    | none => exact hwf
    | some e => exact fun p hp => hwf p (mem_removeTimer hp)

theorem wfTimers_step {s : TimerState} (hwf : WfTimers s) (e : TimerEvent) :
    WfTimers (applyTimerEvent s e).1 := by
  cases e with
  | setT t =>
    simp only [applyTimerEvent, set_timeout]
    by_cases hcap : s.next_timer_id < 1024
    · rw [if_pos hcap]
      intro p hp
      rcases List.mem_cons.1 hp with h1 | h2
      · rw [h1]; exact Nat.lt_succ_self _
      · exact Nat.lt_succ_of_lt (hwf p h2)
    · rw [if_neg hcap]; exact hwf
  | setI t =>
    simp only [applyTimerEvent, set_interval]
    by_cases hcap : s.next_timer_id < 1024
    · rw [if_pos hcap]
      intro p hp
      rcases List.mem_cons.1 hp with h1 | h2
      · rw [h1]; exact Nat.lt_succ_self _
      · exact Nat.lt_succ_of_lt (hwf p h2)
    · rw [if_neg hcap]; exact hwf
  | clearT j => exact wfTimers_clear hwf j
  | clearI j => exact wfTimers_clear hwf j
  | advance d => exact hwf
  | fire j =>
    simp only [applyTimerEvent, on_timer]
    cases hl : lookupTimer j s.timer_registry with
    | none => exact hwf
    | some e =>
      dsimp only
      by_cases hfi : e.started ∧ e.fire_at ≤ s.now
      · rw [if_pos hfi]
        intro p hp
        obtain ⟨q, hq, hq2⟩ := mem_updateTimer hp
        rw [hq2]
        exact hwf q hq
      · rw [if_neg hfi]; exact hwf

/-! ### Claim theorems: timers -/

/-- C2: the claim states that every timer scheduled by set_timeout has its
callback invoked at most once and has the JSValueProtect reference taken at
registration released after (never before) that single invocation, on every
completion path.  The at-most-once half holds on this trace, but the
release half is contradicted by the code: after a one-shot timer fires,
on_timer leaves the TimerRequest registered and its registration protect
unreleased (cb_protects is still 1 with no pending work), so the retained
reference is never released on the firing completion path - the leak the
repository README lists as the known issue "Memory leaks in timer
callbacks".  This theorem evaluates the model at the failing input: one
set_timeout, the timer firing, and a later spurious fire attempt. -/
theorem timer_protect_leak_after_fire :
    (runTimerEvents initTimerState
        [TimerEvent.setT 5, TimerEvent.advance 5, TimerEvent.fire 0,
         TimerEvent.advance 100, TimerEvent.fire 0]).2 = [0] ∧
    lookupTimer 0
        (runTimerEvents initTimerState
          [TimerEvent.setT 5, TimerEvent.advance 5, TimerEvent.fire 0,
           TimerEvent.advance 100, TimerEvent.fire 0]).1.timer_registry =
      some { fire_at := 5, period := 0, started := false, cb_protects := 1 } := by
  decide

/-- C3: for every timer id allocated by set_timeout, if clear_timeout is
called on it before its deadline elapses, then its callback is never
invoked by any later sequence of events: the clear stops and deregisters
the timer, a dead id is never reallocated (the counter only grows), and
nothing can re-arm it. -/
theorem cleared_timer_never_fires (s : TimerState) (id : Nat)
    (e : TimerEntry) (evs : List TimerEvent)
    (hlive : lookupTimer id s.timer_registry = some e)
    (halloc : id < s.next_timer_id)
    (hbefore : s.now < e.fire_at) :
    id ∉ (runTimerEvents (clear_timeout id s) evs).2 :=
  deadId_run (deadId_clear_timeout halloc) evs

theorem cleared_timer_never_fires_witness :
    lookupTimer 0 (set_timeout 10 initTimerState).timer_registry =
      some { fire_at := 10, period := 0, started := true, cb_protects := 1 } ∧
    0 < (set_timeout 10 initTimerState).next_timer_id ∧
    (set_timeout 10 initTimerState).now < 10 ∧
    0 ∉ (runTimerEvents (clear_timeout 0 (set_timeout 10 initTimerState))
          [TimerEvent.advance 20, TimerEvent.fire 0]).2 :=
  ⟨by decide, by decide, by decide,
    cleared_timer_never_fires (set_timeout 10 initTimerState) 0
      { fire_at := 10, period := 0, started := true, cb_protects := 1 }
      [TimerEvent.advance 20, TimerEvent.fire 0]
      (by decide) (by decide) (by decide)⟩

/-- C4 counterexample: the claim holds that any id which no longer denotes
a live timer - explicitly including an already-fired one - is a safe no-op
for clear_timeout, changing no timer state.  In the code a fired one-shot
timer is NOT removed from the registry (on_timer leaves the slot
occupied), so clear_timeout on the fired id 0 removes the entry and
releases the protect: the state changes. -/
theorem clear_fired_id_mutates_state :
    (runTimerEvents initTimerState
        [TimerEvent.setT 5, TimerEvent.advance 5, TimerEvent.fire 0]).2 = [0] ∧
    clear_timeout 0
        (runTimerEvents initTimerState
          [TimerEvent.setT 5, TimerEvent.advance 5, TimerEvent.fire 0]).1 ≠
      (runTimerEvents initTimerState
        [TimerEvent.setT 5, TimerEvent.advance 5, TimerEvent.fire 0]).1 := by
  decide

/-- C4 (amended): ids are allocated from a strictly increasing counter and
are never reused while any handle occupies the registry (each allocation
takes the fresh counter value, which well-formedness puts above every
occupied slot, and every event preserves well-formedness); calling
clear_timeout or clear_interval with an id whose registry slot is empty -
one never allocated or already cleared - is a no-op that changes no state.
An already-fired one-shot id, however, still occupies its slot until
cleared, so clearing it does mutate state (see the counterexample). -/
theorem timer_id_fresh_and_stale_clear_noop (s : TimerState) (t id : Nat)
    (hcap : s.next_timer_id < 1024)
    (hwf : WfTimers s)
    (hstale : lookupTimer id s.timer_registry = none) :
    (set_timeout t s).next_timer_id = s.next_timer_id + 1 ∧
    lookupTimer s.next_timer_id (set_timeout t s).timer_registry =
      some { fire_at := s.now + t, period := 0, started := true,
             cb_protects := 1 } ∧
    lookupTimer s.next_timer_id s.timer_registry = none ∧
    (∀ e, WfTimers (applyTimerEvent s e).1) ∧
    clear_timeout id s = s ∧
    clear_interval id s = s := by
  have hfresh : lookupTimer s.next_timer_id s.timer_registry = none :=
    lookupTimer_eq_none_of_keys_lt hwf
  have hclear : clear_timeout id s = s := by
    unfold clear_timeout
    by_cases hle : s.next_timer_id ≤ id
    · rw [if_pos hle]
    · rw [if_neg hle, hstale]
  refine ⟨?_, ?_, hfresh, fun e => wfTimers_step hwf e, hclear, hclear⟩
  · simp [set_timeout, hcap]
  · simp [set_timeout, hcap, lookupTimer]

theorem timer_id_fresh_and_stale_clear_noop_witness :
    initTimerState.next_timer_id < 1024 ∧
    WfTimers initTimerState ∧
    lookupTimer 7 initTimerState.timer_registry = none ∧
    ((set_timeout 3 initTimerState).next_timer_id =
        initTimerState.next_timer_id + 1 ∧
      lookupTimer initTimerState.next_timer_id
          (set_timeout 3 initTimerState).timer_registry =
        some { fire_at := initTimerState.now + 3, period := 0,
               started := true, cb_protects := 1 } ∧
      lookupTimer initTimerState.next_timer_id
          initTimerState.timer_registry = none ∧
      (∀ e, WfTimers (applyTimerEvent initTimerState e).1) ∧
      clear_timeout 7 initTimerState = initTimerState ∧
      clear_interval 7 initTimerState = initTimerState) :=
  ⟨by decide, fun p hp => absurd hp (List.not_mem_nil p), by decide,
    timer_id_fresh_and_stale_clear_noop initTimerState 3 7 (by decide)
      (fun p hp => absurd hp (List.not_mem_nil p)) (by decide)⟩

/-- C5 counterexample: the claim states that setTimeout(fn, ms) returns
the numeric id of the newly created timer.  In the code js_set_timeout
creates the timer (here with id 0) but returns JSValueMakeUndefined, not
that id. -/
theorem js_set_timeout_returns_undefined :
    (js_set_timeout 5 initTimerState).1 = JSRet.undef ∧
    lookupTimer 0 (js_set_timeout 5 initTimerState).2.timer_registry =
      some { fire_at := 5, period := 0, started := true, cb_protects := 1 } ∧
    (js_set_timeout 5 initTimerState).1 ≠ JSRet.num 0 := by
  decide

/-- C5 (amended): with valid arguments, js_set_interval returns the
numeric id of the newly created interval timer (next_timer_id - 1, the id
under which the new repeating entry is registered), while js_set_timeout
creates the timer but returns undefined rather than its id. -/
theorem js_timer_return_values (s : TimerState) (delay interval : Nat)
    (hcap : s.next_timer_id < 1024) :
    (js_set_timeout delay s).1 = JSRet.undef ∧
    (js_set_interval interval s).1 = JSRet.num s.next_timer_id ∧
    lookupTimer s.next_timer_id (js_set_interval interval s).2.timer_registry =
      some { fire_at := s.now + interval, period := interval, started := true,
             cb_protects := 1 } := by
  refine ⟨rfl, ?_, ?_⟩
  · simp [js_set_interval, set_interval, hcap]
  · simp [js_set_interval, set_interval, hcap, lookupTimer]

theorem js_timer_return_values_witness :
    initTimerState.next_timer_id < 1024 ∧
    ((js_set_timeout 5 initTimerState).1 = JSRet.undef ∧
      (js_set_interval 7 initTimerState).1 =
        JSRet.num initTimerState.next_timer_id ∧
      lookupTimer initTimerState.next_timer_id
          (js_set_interval 7 initTimerState).2.timer_registry =
        some { fire_at := initTimerState.now + 7, period := 7,
               started := true, cb_protects := 1 }) :=
  ⟨by decide, js_timer_return_values initTimerState 5 7 (by decide)⟩

/-- C10: clear_interval is extensionally equal to clear_timeout - its C
body is exactly one call to clear_timeout with the same arguments - so
timeouts and intervals share the one id namespace of next_timer_id and
either clear function cancels either kind of timer. -/
theorem clear_interval_extensionally_clear_timeout :
    ∀ (id : Nat) (s : TimerState), clear_interval id s = clear_timeout id s :=
  fun _ _ => rfl

/-! ### HTTP parse lemmas -/

theorem isPrefixOf_eq_true_iff {l₁ l₂ : List Char} :
    l₁.isPrefixOf l₂ = true ↔ l₁ <+: l₂ :=
  List.isPrefixOf_iff_prefix

theorem findSub_isPrefix {pat s : List Char} {i : Nat}
    (h : findSub pat s = some i) : pat <+: s.drop i := by
  induction s generalizing i with
  | nil =>
    rw [findSub] at h
    by_cases hp : pat.isPrefixOf ([] : List Char)
    · rw [if_pos hp] at h
      cases h
      simpa using isPrefixOf_eq_true_iff.1 hp
    · rw [if_neg hp] at h
      cases h
  | cons c t ih =>
    rw [findSub] at h
    by_cases hp : pat.isPrefixOf (c :: t)
    · rw [if_pos hp] at h
      cases h
      simpa using isPrefixOf_eq_true_iff.1 hp
    · rw [if_neg hp] at h
      cases hft : findSub pat t with
      | none => rw [hft] at h; cases h
      | some j =>
        rw [hft] at h
        simp only [Option.map_some'] at h
        cases h
        simpa [List.drop_succ_cons] using ih hft

theorem findSub_min {pat s : List Char} {i : Nat}
    (h : findSub pat s = some i) : ∀ j, j < i → ¬ pat <+: s.drop j := by
  induction s generalizing i with
  | nil =>
    rw [findSub] at h
    by_cases hp : pat.isPrefixOf ([] : List Char)
    · rw [if_pos hp] at h
      cases h
      intro j hj
      exact absurd hj (Nat.not_lt_zero j)
    · rw [if_neg hp] at h
      cases h
  | cons c t ih =>
    rw [findSub] at h
    by_cases hp : pat.isPrefixOf (c :: t)
    · rw [if_pos hp] at h
      cases h
      intro j hj
      exact absurd hj (Nat.not_lt_zero j)
    · rw [if_neg hp] at h
      cases hft : findSub pat t with
      | none => rw [hft] at h; cases h
      | some j' =>
        rw [hft] at h
        simp only [Option.map_some'] at h
        cases h
        intro j hj
        cases j with
        | zero =>
          intro hcon
          exact hp (isPrefixOf_eq_true_iff.2 (by simpa using hcon))
        | succ k =>
          simpa [List.drop_succ_cons] using ih hft k (by omega)

theorem findSub_le_of_isPrefix {pat s : List Char} {j : Nat}
    (h : pat <+: s.drop j) : ∃ i, i ≤ j ∧ findSub pat s = some i := by
  induction s generalizing j with
  | nil =>
    have hpat : pat = [] := by
      have := h.length_le
      simpa using List.eq_nil_of_length_eq_zero (by simpa using this)
    refine ⟨0, Nat.zero_le j, ?_⟩
    rw [findSub, if_pos (isPrefixOf_eq_true_iff.2 (by simp [hpat]))]
  | cons c t ih =>
    by_cases hp : pat.isPrefixOf (c :: t)
    · exact ⟨0, Nat.zero_le j, by rw [findSub, if_pos hp]⟩
    · cases j with
      | zero =>
        exact absurd (isPrefixOf_eq_true_iff.2 (by simpa using h)) hp
      | succ k =>
        obtain ⟨i, hik, hfi⟩ := ih (by simpa [List.drop_succ_cons] using h)
        exact ⟨i + 1, by omega, by rw [findSub, if_neg hp, hfi]; rfl⟩

theorem findSub_cons_eq_none {c : Char} {pat s : List Char} (h : c ∉ s) :
    findSub (c :: pat) s = none := by
  induction s with
  | nil =>
    have hnp : ¬ (c :: pat).isPrefixOf ([] : List Char) = true := by
      intro hp
      have h2 := (isPrefixOf_eq_true_iff.1 hp).length_le
      simp at h2
    rw [findSub, if_neg hnp]
  | cons d t ih =>
    have hcd : ¬ c = d := fun hcc => h (hcc ▸ List.mem_cons_self d t)
    have hnp : ¬ (c :: pat).isPrefixOf (d :: t) = true := by
      intro hp
      exact hcd (List.cons_prefix_cons.1 (isPrefixOf_eq_true_iff.1 hp)).1
    rw [findSub, if_neg hnp, ih (fun hm => h (List.mem_cons_of_mem d hm))]
    rfl

theorem cstr_prefix_self (l : List Char) : cstr l <+: l :=
  List.takeWhile_prefix _

theorem cstr_prefix_mono : ∀ {P S : List Char}, P <+: S → cstr P <+: cstr S := by
  intro P
  induction P with
  | nil => intro S _; simp [cstr]
  | cons c P' ih =>
    intro S h
    obtain ⟨t, rfl⟩ := h
    have ih2 := ih (List.prefix_append P' t)
    unfold cstr at ih2 ⊢
    rw [List.cons_append, List.takeWhile_cons, List.takeWhile_cons]
    by_cases hc : c = '\x00'
    · rw [if_neg (by simp [hc]), if_neg (by simp [hc])]
    · rw [if_pos (by simp [hc]), if_pos (by simp [hc])]
      exact List.cons_prefix_cons.2 ⟨rfl, ih2⟩

theorem cstr_eq_self {l : List Char} (h : '\x00' ∉ l) : cstr l = l := by
  induction l with
  | nil => rfl
  | cons c t ih =>
    have hc : ¬ (c = '\x00') := fun hcc => h (hcc ▸ List.mem_cons_self c t)
    have ht : cstr t = t := ih (fun hm => h (List.mem_cons_of_mem c hm))
    unfold cstr at ht ⊢
    rw [List.takeWhile_cons, if_pos (by simp [hc]), ht]

theorem take_eq_of_isPrefix {P S : List Char} (h : P <+: S) {i : Nat}
    (hi : i ≤ P.length) : P.take i = S.take i := by
  obtain ⟨t, rfl⟩ := h
  rw [List.take_append_of_le_length hi]

theorem response_data_step (st : HttpState) (c : List Char) :
    (on_http_read_data st c).response_data = st.response_data ++ c := by
  rw [on_http_read_data]
  by_cases h : st.headers_parsed
  · rw [if_pos h]
  · rw [if_neg h]
    cases hf : findSub headerBodySep (cstr (st.response_data ++ c)) <;> simp

theorem httpReadSequence_spec (chunks : List (List Char)) (st : HttpState)
    (c : Int) :
    httpReadSequence st (chunks.map ReadEvent.data ++ [ReadEvent.closed c]) =
      (chunks.foldl on_http_read_data st,
        [(JSArg.null,
          JSArg.respObj (on_http_read_done (chunks.foldl on_http_read_data st)))]) := by
  induction chunks generalizing st with
  | nil => rfl
  | cons b rest ih =>
    simpa [httpReadSequence] using ih (on_http_read_data st b)

/-- At the read where the accumulated prefix `P` of the stream `S` first
contains the delimiter (at index `i` in the accumulated C string), the
full-stream search finds the delimiter at the same index. -/
theorem parse_trigger_eq {S P : List Char} {i : Nat} (hPS : P <+: S)
    (hfind : findSub headerBodySep (cstr P) = some i) :
    findSub headerBodySep (cstr S) = some i ∧ i + 4 ≤ (cstr P).length := by
  have hocc : headerBodySep <+: (cstr P).drop i := findSub_isPrefix hfind
  have hlen : i + 4 ≤ (cstr P).length := by
    have h1 := hocc.length_le
    rw [List.length_drop] at h1
    have : headerBodySep.length = 4 := rfl
    omega
  have hmono : cstr P <+: cstr S := cstr_prefix_mono hPS
  have hoccS : headerBodySep <+: (cstr S).drop i := hocc.trans (hmono.drop i)
  obtain ⟨i2, hi2le, hi2⟩ := findSub_le_of_isPrefix hoccS
  rcases Nat.lt_or_ge i2 i with hlt | hge
  · exfalso
    have hocc2 : headerBodySep <+: (cstr S).drop i2 := findSub_isPrefix hi2
    have hdrop : (cstr P).drop i2 <+: (cstr S).drop i2 := hmono.drop i2
    have hlen2 : headerBodySep.length ≤ ((cstr P).drop i2).length := by
      rw [List.length_drop]
      have : headerBodySep.length = 4 := rfl
      omega
    exact findSub_min hfind i2 hlt
      (List.prefix_of_prefix_length_le hocc2 hdrop hlen2)
  · have heq : i2 = i := Nat.le_antisymm hi2le hge
    exact ⟨heq ▸ hi2, hlen⟩

theorem goodBody_step {S : List Char} {st : HttpState} {c : List Char}
    (hS4 : 4 ≤ S.length)
    (hlast : findSub headerBodySep S = some (S.length - 4))
    (hdata : st.response_data ++ c <+: S)
    (hgood : GoodBody st) : GoodBody (on_http_read_data st c) := by
  rw [on_http_read_data]
  rcases hgood with ⟨hp, hb⟩ | ⟨hp, hb⟩
  · rw [if_neg (by simp [hp])]
    cases hf : findSub headerBodySep (cstr (st.response_data ++ c)) with
    | none => exact Or.inl ⟨hp, hb⟩
    | some i =>
      dsimp only
      right
      refine ⟨rfl, ?_⟩
      have hocc : headerBodySep <+: (cstr (st.response_data ++ c)).drop i :=
        findSub_isPrefix hf
      have hlen : i + 4 ≤ (cstr (st.response_data ++ c)).length := by
        have h1 := hocc.length_le
        rw [List.length_drop] at h1
        have h2 : headerBodySep.length = 4 := rfl
        omega
      have hoccS : headerBodySep <+: S.drop i :=
        hocc.trans (((cstr_prefix_self (st.response_data ++ c)).trans hdata).drop i)
      have hge : S.length - 4 ≤ i := by
        by_contra hcon
        exact findSub_min hlast i (by omega) hoccS
      have hcl : (cstr (st.response_data ++ c)).length ≤
          (st.response_data ++ c).length :=
        (cstr_prefix_self (st.response_data ++ c)).length_le
      have hSl : (st.response_data ++ c).length ≤ S.length := hdata.length_le
      rw [if_neg (by omega)]
  · rw [if_pos hp]
    exact Or.inr ⟨hp, hb⟩

theorem goodBody_fold {S : List Char} (hS4 : 4 ≤ S.length)
    (hlast : findSub headerBodySep S = some (S.length - 4)) :
    ∀ (chunks : List (List Char)) (st : HttpState),
      st.response_data ++ chunks.join = S → GoodBody st →
      GoodBody (chunks.foldl on_http_read_data st) := by
  intro chunks
  induction chunks with
  | nil => intro st _ h; exact h
  | cons c rest ih =>
    intro st heq hg
    rw [List.foldl_cons]
    have heq2 : (st.response_data ++ c) ++ rest.join = S := by
      rw [List.append_assoc]
      simpa [List.join_cons] using heq
    exact ih (on_http_read_data st c)
      (by rw [response_data_step]; exact heq2)
      (goodBody_step hS4 hlast ⟨rest.join, heq2⟩ hg)

theorem statusInv_step {S : List Char} {st : HttpState} {c : List Char}
    (hdata : st.response_data ++ c <+: S)
    (hinv : StatusInv S st) : StatusInv S (on_http_read_data st c) := by
  rw [on_http_read_data]
  rcases hinv with ⟨hp, h0, _⟩ | ⟨hp, hs⟩
  · rw [if_neg (by simp [hp])]
    cases hf : findSub headerBodySep (cstr (st.response_data ++ c)) with
    | none => exact Or.inl ⟨hp, h0, hf⟩
    | some i =>
      dsimp only
      right
      refine ⟨rfl, ?_⟩
      obtain ⟨hfS, hlen⟩ := parse_trigger_eq hdata hf
      have hile : i ≤ (st.response_data ++ c).length := by
        have := (cstr_prefix_self (st.response_data ++ c)).length_le
        omega
      have htake : (st.response_data ++ c).take i = S.take i :=
        take_eq_of_isPrefix hdata hile
      rw [h0, htake]
      unfold specStatusOf statusLineOfStream
      rw [hfS]
      dsimp only
      cases hst : (strtokFirst (S.take i)).1 with
      | none => rfl
      | some tok => rfl
  · rw [if_pos hp]
    exact Or.inr ⟨hp, hs⟩

theorem statusInv_fold {S : List Char} :
    ∀ (chunks : List (List Char)) (st : HttpState),
      st.response_data ++ chunks.join = S → StatusInv S st →
      StatusInv S (chunks.foldl on_http_read_data st) := by
  intro chunks
  induction chunks with
  | nil => intro st _ h; exact h
  | cons c rest ih =>
    intro st heq hinv
    rw [List.foldl_cons]
    have heq2 : (st.response_data ++ c) ++ rest.join = S := by
      rw [List.append_assoc]
      simpa [List.join_cons] using heq
    exact ih (on_http_read_data st c)
      (by rw [response_data_step]; exact heq2)
      (statusInv_step ⟨rest.join, heq2⟩ hinv)

theorem response_data_fold :
    ∀ (chunks : List (List Char)) (st : HttpState),
      (chunks.foldl on_http_read_data st).response_data =
        st.response_data ++ chunks.join := by
  intro chunks
  induction chunks with
  | nil => intro st; simp
  | cons c rest ih =>
    intro st
    rw [List.foldl_cons, ih, response_data_step, List.append_assoc]
    rfl

/-! ### Claim theorems: HTTP client -/

/-- C1: the claim states that every network failure on the HTTP client
path (DNS, connect, read) invokes the script callback exactly once with
an error first argument and null second argument, never silently dropped.
The code contradicts this on all three paths, against its own README
(which documents error-first callbacks and lists error handling as an
implemented HTTP-client feature): on_dns_resolved returns on a negative
status without invoking the callback, on_http_connect does the same, and
a read failure (negative nread, here ECONNRESET) takes the same branch as
EOF and invokes the callback once with a null first argument and a
success-shaped response - not with an error.  This theorem evaluates the
three handlers at the failing inputs. -/
theorem network_failures_dropped_or_success_shaped :
    on_dns_resolved (-3008) = (DnsOutcome.silentDrop, []) ∧
    on_http_connect (-111) none ("/".toList) ("example.com".toList) none 0 =
      (ConnectOutcome.silentDrop, []) ∧
    (httpReadSequence initHttpState [ReadEvent.closed (-104)]).2 =
      [(JSArg.null, JSArg.respObj (on_http_read_done initHttpState))] := by
  decide

/-- C6: the claim states that the stream HTTP/1.1 200 OK, a Content-Type
header, a blank line and the body hello parses to status 200, a header
map containing Content-Type, and body hello.  The code delivers status
200 and body hello but an EMPTY header map: the strtok call that isolates
the status line writes a NUL over the first CR of the header buffer, so
the header loop run at stream close sees a C string that ends with the
status line (which contains no colon) and can never reach the
Content-Type line.  The README documents response header parsing as an
implemented feature, so the header loop is intended to run - this is a
code bug.  This theorem evaluates the full client parse at the failing
input, delivered in a single read followed by orderly close. -/
theorem header_map_lost_on_well_formed_response :
    httpClientRun
        ["HTTP/1.1 200 OK\r\nContent-Type: text/plain\r\n\r\nhello".toList] =
      { statusCode := 200, headers := [], body := "hello".toList } ∧
    (httpClientRun
        ["HTTP/1.1 200 OK\r\nContent-Type: text/plain\r\n\r\nhello".toList]).headers ≠
      [("Content-Type".toList, "text/plain".toList)] ∧
    (httpReadSequence initHttpState
        [ReadEvent.data
          "HTTP/1.1 200 OK\r\nContent-Type: text/plain\r\n\r\nhello".toList,
         ReadEvent.closed (-4095)]).2 =
      [(JSArg.null,
        JSArg.respObj
          { statusCode := 200, headers := [], body := "hello".toList })] := by
  decide

/-- C7: for every delivery (any chunking, then close) of a byte stream
whose first blank-line delimiter sits at its very end - so the body
portion after the delimiter is empty - the body delivered to the callback
is the two-character placeholder (an opening and a closing curly brace),
not the empty string; and the callback is invoked exactly once, with null
error and the parsed response. -/
theorem empty_body_reported_as_braces (chunks : List (List Char))
    (code : Int)
    (h4 : 4 ≤ chunks.join.length)
    (hlast : findSub headerBodySep chunks.join =
      some (chunks.join.length - 4)) :
    (httpClientRun chunks).body = jsonEmpty ∧
    (httpReadSequence initHttpState
        (chunks.map ReadEvent.data ++ [ReadEvent.closed code])).2 =
      [(JSArg.null, JSArg.respObj (httpClientRun chunks))] := by
  constructor
  · have hg : GoodBody (chunks.foldl on_http_read_data initHttpState) :=
      goodBody_fold h4 hlast chunks initHttpState (by simp [initHttpState])
        (Or.inl ⟨rfl, rfl⟩)
    rw [httpClientRun, on_http_read_done]
    rcases hg with ⟨_, hb⟩ | ⟨_, hb⟩ <;> rw [hb] <;> rfl
  · rw [httpReadSequence_spec, httpClientRun]

theorem empty_body_reported_as_braces_witness :
    (httpClientRun ["HTTP/1.1 200 OK\r\n\r\n".toList]).body = jsonEmpty :=
  (empty_body_reported_as_braces ["HTTP/1.1 200 OK\r\n\r\n".toList] (-4095)
    (by decide) (by decide)).1

/-- C8 counterexample: the claim states that every response whose status
line is not of the form HTTP/1.1 code (with a space) silently degrades to
a ZERO status code.  The status line HTTP/1.1200 Bogus is not of that
form, yet the sscanf call matches its HTTP/1.1 literal prefix and then
reads 200 from the immediately following digits, so the delivered status
code is 200, not 0. -/
theorem malformed_status_line_yields_nonzero_code :
    specStatusLineForm ("HTTP/1.1200 Bogus".toList) = false ∧
    statusLineOfStream ("HTTP/1.1200 Bogus\r\n\r\nhi".toList) =
      some ("HTTP/1.1200 Bogus".toList) ∧
    (httpClientRun ["HTTP/1.1200 Bogus\r\n\r\nhi".toList]).statusCode = 200 ∧
    (httpClientRun ["HTTP/1.1200 Bogus\r\n\r\nhi".toList]).statusCode ≠ 0 := by
  decide

/-- C8 (amended): the parse never fails the callback - on stream close
the callback is always invoked exactly once with a null first argument
and the response object - and for every delivery (any chunking) the
delivered status code is exactly what the sscanf scan of the first strtok
token of the header section yields: 0 when the scan fails (no HTTP/1.1
literal prefix, or no integer after it, or no delimiter in the stream at
all), and the scanned integer otherwise, which is nonzero for some status
lines that are not of the spec form HTTP/1.1 space code. -/
theorem status_code_follows_sscanf (chunks : List (List Char)) (code : Int) :
    (httpClientRun chunks).statusCode = specStatusOf chunks.join ∧
    (httpReadSequence initHttpState
        (chunks.map ReadEvent.data ++ [ReadEvent.closed code])).2 =
      [(JSArg.null, JSArg.respObj (httpClientRun chunks))] := by
  constructor
  · have hinv : StatusInv chunks.join
        (chunks.foldl on_http_read_data initHttpState) :=
      statusInv_fold chunks initHttpState (by simp [initHttpState])
        (Or.inl ⟨rfl, rfl, by decide⟩)
    rw [httpClientRun, on_http_read_done]
    rcases hinv with ⟨_, h0, hnone⟩ | ⟨_, hs⟩
    · rw [response_data_fold] at hnone
      simp only [initHttpState, List.nil_append] at hnone
      rw [h0, specStatusOf, statusLineOfStream, hnone]
    · exact hs
  · rw [httpReadSequence_spec, httpClientRun]

theorem is_json_data_iff {body : List Char} (h : '\x00' ∉ body) :
    is_json_data (some body) = true ↔
      (body.head? = some '{' ∧ body.getLast? = some '}') := by
  rw [is_json_data, cstr_eq_self h]
  cases body with
  | nil => simp
  | cons b t =>
    rw [List.getLast?_eq_getLast (b :: t) (by simp)]
    simp [Bool.and_eq_true]

/-- C9 counterexample: the claim states that EVERY http.post request with
a body string writes a request carrying the Content-Type inferred from
the body shape together with a Content-Length equal to the body byte
length.  on_http_connect formats the request with snprintf into a
1024-byte stack buffer, so at most 1023 bytes are written: for a path of
1000 characters and body a=1 the assembled text is 1117 bytes and the
truncation cuts the request off right after the Host header value -
the request written to the socket contains no Content-Type and no
Content-Length at all. -/
theorem truncated_post_request_lacks_content_headers :
    (on_http_connect 0 (some ("POST".toList)) (List.replicate 1000 'a')
        ("h".toList) (some ("a=1".toList))
        (postRequestDataLen ("a=1".toList))).1 =
      ConnectOutcome.wrote
        ("POST ".toList ++ List.replicate 1000 'a' ++
          " HTTP/1.1\r\nHost: h".toList) ∧
    findSub ("Content-Type".toList)
        ("POST ".toList ++ List.replicate 1000 'a' ++
          " HTTP/1.1\r\nHost: h".toList) = none ∧
    findSub ("Content-Length".toList)
        ("POST ".toList ++ List.replicate 1000 'a' ++
          " HTTP/1.1\r\nHost: h".toList) = none := by
  have hsplit : " HTTP/1.1\r\nHost: ".toList ++ "h".toList =
      " HTTP/1.1\r\nHost: h".toList := by decide
  have hC : 'C' ∉ ("POST ".toList ++ List.replicate 1000 'a' ++
      " HTTP/1.1\r\nHost: h".toList) := by
    intro hm
    rcases List.mem_append.1 hm with hm1 | hm2
    · rcases List.mem_append.1 hm1 with hma | hmb
      · exact absurd hma (by decide)
      · exact absurd (List.eq_of_mem_replicate hmb) (by decide)
    · exact absurd hm2 (by decide)
  have hAlen : ("POST ".toList ++ List.replicate 1000 'a' ++
      " HTTP/1.1\r\nHost: h".toList).length = 1023 := by
    rw [List.length_append, List.length_append, List.length_replicate]
    decide
  refine ⟨?_, ?_, ?_⟩
  · rw [on_http_connect, if_neg (by decide : ¬ (0 : Int) < 0)]
    have hct : (if is_json_data (some ("a=1".toList)) then ctJson
        else ctForm) = ctForm := by
      rw [if_neg (by decide)]
    have hB : buildHttpRequest (some ("POST".toList))
        (List.replicate 1000 'a') ("h".toList) (some ("a=1".toList))
        (postRequestDataLen ("a=1".toList)) =
        ("POST ".toList ++ List.replicate 1000 'a' ++
          " HTTP/1.1\r\nHost: h".toList) ++
        ("\r\nContent-Type: ".toList ++ ctForm ++
          "\r\nContent-Length: ".toList ++
          (Nat.repr (postRequestDataLen ("a=1".toList))).toList ++
          "\r\nConnection: close\r\n\r\n".toList ++ "a=1".toList) := by
      rw [buildHttpRequest, if_neg (by decide), if_neg (by decide),
        if_pos (by rfl), hct, Option.getD_some,
        cstr_eq_self (by decide : '\x00' ∉ ("a=1".toList))]
      rw [← hsplit]
      simp only [List.append_assoc]
    dsimp only
    rw [hB, List.take_append_of_le_length hAlen.ge,
      List.take_of_length_le hAlen.le]
  · have h1 : ("Content-Type".toList) = 'C' :: "ontent-Type".toList := rfl
    rw [h1]
    exact findSub_cons_eq_none hC
  · have h1 : ("Content-Length".toList) = 'C' :: "ontent-Length".toList := rfl
    rw [h1]
    exact findSub_cons_eq_none hC

/-- C9 (amended): for every http.post and http.put request with a NUL-free
body whose assembled request text fits the 1024-byte snprintf buffer (at
most 1023 bytes - beyond that snprintf truncates the written request,
which can then lack the content headers entirely, see the counterexample),
the request written to the socket carries Content-Type application/json
exactly when the body starts with an opening curly brace and ends with a
closing one (and application/x-www-form-urlencoded otherwise), together
with a Content-Length equal to the byte length of the body. -/
theorem post_put_content_type_and_length (host path body : List Char)
    (hnul : '\x00' ∉ body)
    (hfitsPost : (buildHttpRequest (some ("POST".toList)) path host
      (some body) (postRequestDataLen body)).length ≤ 1023)
    (hfitsPut : (buildHttpRequest (some ("PUT".toList)) path host
      (some body) (postRequestDataLen body)).length ≤ 1023) :
    postRequestDataLen body = body.length ∧
    on_http_connect 0 (some ("POST".toList)) path host (some body)
        (postRequestDataLen body) =
      (ConnectOutcome.wrote
        ("POST ".toList ++ path ++ " HTTP/1.1\r\nHost: ".toList ++ host ++
          "\r\nContent-Type: ".toList ++
          (if body.head? = some '{' ∧ body.getLast? = some '}' then ctJson
            else ctForm) ++
          "\r\nContent-Length: ".toList ++ (Nat.repr body.length).toList ++
          "\r\nConnection: close\r\n\r\n".toList ++ body), []) ∧
    on_http_connect 0 (some ("PUT".toList)) path host (some body)
        (postRequestDataLen body) =
      (ConnectOutcome.wrote
        ("PUT ".toList ++ path ++ " HTTP/1.1\r\nHost: ".toList ++ host ++
          "\r\nContent-Type: ".toList ++
          (if body.head? = some '{' ∧ body.getLast? = some '}' then ctJson
            else ctForm) ++
          "\r\nContent-Length: ".toList ++ (Nat.repr body.length).toList ++
          "\r\nConnection: close\r\n\r\n".toList ++ body), []) := by
  have hcstr : cstr body = body := cstr_eq_self hnul
  have hlen : postRequestDataLen body = body.length := by
    rw [postRequestDataLen, hcstr]
  have hif : (if is_json_data (some body) then ctJson else ctForm) =
      (if body.head? = some '{' ∧ body.getLast? = some '}' then ctJson
        else ctForm) := by
    by_cases hj : body.head? = some '{' ∧ body.getLast? = some '}'
    · rw [if_pos hj, if_pos ((is_json_data_iff hnul).2 hj)]
    · rw [if_neg hj, if_neg (by
        intro hh
        exact hj ((is_json_data_iff hnul).1 (by simpa using hh)))]
  have hbPost : buildHttpRequest (some ("POST".toList)) path host (some body)
      (postRequestDataLen body) =
      "POST ".toList ++ path ++ " HTTP/1.1\r\nHost: ".toList ++ host ++
        "\r\nContent-Type: ".toList ++
        (if body.head? = some '{' ∧ body.getLast? = some '}' then ctJson
          else ctForm) ++
        "\r\nContent-Length: ".toList ++ (Nat.repr body.length).toList ++
        "\r\nConnection: close\r\n\r\n".toList ++ body := by
    rw [buildHttpRequest, if_neg (by decide), if_neg (by decide),
      if_pos (by rfl)]
    rw [Option.getD_some, hcstr, hlen, hif]
  have hbPut : buildHttpRequest (some ("PUT".toList)) path host (some body)
      (postRequestDataLen body) =
      "PUT ".toList ++ path ++ " HTTP/1.1\r\nHost: ".toList ++ host ++
        "\r\nContent-Type: ".toList ++
        (if body.head? = some '{' ∧ body.getLast? = some '}' then ctJson
          else ctForm) ++
        "\r\nContent-Length: ".toList ++ (Nat.repr body.length).toList ++
        "\r\nConnection: close\r\n\r\n".toList ++ body := by
    rw [buildHttpRequest, if_neg (by decide), if_pos rfl]
    rw [Option.getD_some, hcstr, hlen, hif]
  refine ⟨hlen, ?_, ?_⟩
  · rw [on_http_connect, if_neg (by norm_num), hbPost,
      List.take_of_length_le (hbPost ▸ hfitsPost)]
  · rw [on_http_connect, if_neg (by norm_num), hbPut,
      List.take_of_length_le (hbPut ▸ hfitsPut)]

theorem post_put_content_type_and_length_witness :
    postRequestDataLen ("a=1".toList) = ("a=1".toList).length :=
  (post_put_content_type_and_length ("h".toList) ("/".toList) ("a=1".toList)
    (by decide) (by decide) (by decide)).1

end Jade
